import Mathlib

/-!
Shallow embedding of the sequence cache of QtAliceVision
(src/SequenceCache.cpp): the Sequence Index built by `setSequence`, the
Window Planner `getRegion`, the Prefetch Coordinator state machine
(`request` / `onResultReady`), and the Background Loader
(`PrefetchingIORunnable::run`).

Modelling decisions:
- `std::string` paths are Lean `String`s; the C++ comparison
  `d1.path < d2.path` (lexicographic by character) is embedded as the
  structural function `charListLt` on `String.data`, so that concrete
  instances evaluate inside the kernel.
- `std::sort` with the strict comparator `path <` is embedded as
  `List.insertionSort` over the induced total preorder
  `¬ (d2.path < d1.path)`; this realises the `std::sort` postcondition
  (a permutation in which no element strictly precedes an earlier one),
  and for duplicate-free paths that permutation is unique.
- The Bounded Pixel Cache (`aliceVision::image::ImageCache`) is external
  to the repository; it is modelled as the list of paths currently
  resident, with the pull-through `get` inserting on a miss and eviction
  abstracted away (no frame is ever dropped, which only favours
  residency claims).
- The external metadata probe `aliceVision::image::readImageMetadata`
  may fail; failure is modelled as `Option.none`, and — as in the source,
  which performs no error check — a failed probe is swallowed into a
  zero-valued descriptor.
- Machine `int`s are `Int`; no arithmetic here approaches 2^31.
- Qt signals are modelled as explicit outputs: the dispatched batch of a
  `request` call, and the `requestHandled` Boolean of `onResultReady`.
-/

/-- One entry of the Sequence Index (`FrameData` in SequenceCache.hpp):
path, original dimensions, opaque metadata. -/
structure FrameData where
  path : String
  dim : Int × Int
  metadata : List (String × String)
deriving DecidableEq, Repr, Inhabited

/-- Lexicographic strict comparison of character lists: the embedding of
`std::string::operator<` used by the sort comparator in `setSequence`. -/
def charListLt : List Char → List Char → Bool
  | [], [] => false
  | [], _ :: _ => true
  | _ :: _, [] => false
  | a :: as, b :: bs => if a < b then true else if b < a then false else charListLt as bs

/-- The comparator of the `std::sort` call in `SequenceCache::setSequence`:
`d1.path < d2.path`. -/
def frameLt (d1 d2 : FrameData) : Prop := charListLt d1.path.data d2.path.data = true

/-- The total preorder induced by the strict comparator, with respect to
which `std::sort` leaves the range sorted: `¬ (d2.path < d1.path)`. -/
def frameLe (d1 d2 : FrameData) : Prop := charListLt d2.path.data d1.path.data = false

instance : DecidableRel frameLt := fun d1 d2 =>
  inferInstanceAs (Decidable (charListLt d1.path.data d2.path.data = true))

instance : DecidableRel frameLe := fun d1 d2 =>
  inferInstanceAs (Decidable (charListLt d2.path.data d1.path.data = false))

/-- State of a `SequenceCache` object: the Sequence Index `sequence`, the
two active regions and the two pending regions with their extents, the
`loading` flag, and the set of paths resident in the Bounded Pixel Cache
(modelled as a list). -/
structure CacheState where
  sequence : List FrameData
  regionPrefetch : Int × Int
  extentPrefetch : Int
  regionSafe : Int × Int
  extentSafe : Int
  nextRegionPrefetch : Int × Int
  nextRegionSafe : Int × Int
  loading : Bool
  cache : List String
deriving DecidableEq, Repr

/-- A query result (`SequenceCache::Response`): image handle (keyed by
path; `none` models the null pointer of the default-constructed
response), dimensions, metadata. -/
structure Response where
  img : Option String
  dim : Option (Int × Int)
  metadata : List (String × String)
deriving DecidableEq, Repr

/-- The default-constructed empty `Response`. -/
def Response.empty : Response := { img := none, dim := none, metadata := [] }

/-- State right after `SequenceCache::SequenceCache`: empty sequence and
cache, extents 30 and 20, both region pairs `(0, 0)`, not loading.  The
pending region pairs are value-initialized `std::pair`s, i.e. `(0, 0)`. -/
def SequenceCache.init : CacheState :=
  { sequence := []
    regionPrefetch := (0, 0)
    extentPrefetch := 30
    regionSafe := (0, 0)
    extentSafe := 20
    nextRegionPrefetch := (0, 0)
    nextRegionSafe := (0, 0)
    loading := false
    cache := [] }

/-- Body of the `setSequence` loop for one path: probe the metadata and
build the descriptor.  The source checks no error: a failed probe still
yields a descriptor, with zeroed dimensions and empty metadata. -/
def probeFrame (probe : String → Option ((Int × Int) × List (String × String)))
    (p : String) : FrameData :=
  let r := (probe p).getD ((0, 0), [])
  { path := p, dim := r.1, metadata := r.2 }

/-- `SequenceCache::setSequence`, parametrized by the external metadata
probe `aliceVision::image::readImageMetadata` (dimensions and metadata on
success).  The final `std::sort` by path is embedded as insertion sort
over `frameLe`. -/
def SequenceCache.setSequence
    (probe : String → Option ((Int × Int) × List (String × String)))
    (s : CacheState) (paths : List String) : CacheState :=
  { s with sequence := List.insertionSort frameLe (paths.map (probeFrame probe)) }

/-- The loop of `SequenceCache::getFrame`, carrying the running index. -/
def SequenceCache.getFrameFrom (path : String) (idx : Int) : List FrameData → Int
  | [] => -1
  | d :: rest => if d.path == path then idx else SequenceCache.getFrameFrom path (idx + 1) rest

/-- `SequenceCache::getFrame`: index of the first descriptor with the
given path, `-1` when absent. -/
def SequenceCache.getFrame (sequence : List FrameData) (path : String) : Int :=
  SequenceCache.getFrameFrom path 0 sequence

/-- `SequenceCache::getRegion` (the Window Planner `computeRegion`):
symmetric window of the given extent around `frame`, clamped at the
sequence boundaries. -/
def SequenceCache.getRegion (sequenceSize frame extent : Int) : Int × Int :=
  let start := frame - extent
  let stop := frame + extent
  if start < 0 then
    (0, min (sequenceSize - 1) (2 * extent))
  else if sequenceSize ≤ stop then
    (max 0 (sequenceSize - 1 - 2 * extent), sequenceSize - 1)
  else
    (start, stop)

/-- Pull-through `ImageCache::get` at the fixed resolution level: inserts
the path on a miss, no-op on a hit. -/
def cacheGet (cache : List String) (path : String) : List String :=
  if path ∈ cache then cache else path :: cache

/-- `PrefetchingIORunnable::run`: load every frame of the batch into the
Bounded Pixel Cache. -/
def PrefetchingIORunnable.run (cache : List String) (toLoad : List FrameData) : List String :=
  toLoad.foldl (fun c d => cacheGet c d.path) cache

/-- Result of one `SequenceCache::request` call: the successor state, the
returned `Response`, and the batch handed to a freshly dispatched
`PrefetchingIORunnable` (`none` when no loader was started). -/
structure RequestResult where
  state : CacheState
  response : Response
  dispatched : Option (List FrameData)
deriving DecidableEq, Repr

/-- `SequenceCache::request`.  Unknown path: empty response, no effect.
Otherwise, if the frame is outside the safe region and no load is in
flight, set `loading`, record the pending regions, and dispatch the
batch `sequence[nextPrefetch.first .. nextPrefetch.second)` (the
half-open iterator range of the source).  Independently, if the frame is
inside the current prefetch region, serve it through the pull-through
cache. -/
def SequenceCache.request (s : CacheState) (path : String) : RequestResult :=
  let frame := SequenceCache.getFrame s.sequence path
  if frame < 0 then
    ⟨s, Response.empty, none⟩
  else
    let step :=
      if (frame < s.regionSafe.1 ∨ s.regionSafe.2 < frame) ∧ s.loading = false then
        let np := SequenceCache.getRegion s.sequence.length frame s.extentPrefetch
        let ns := SequenceCache.getRegion s.sequence.length frame s.extentSafe
        let toLoad := (s.sequence.drop np.1.toNat).take (np.2 - np.1).toNat
        (({ s with loading := true, nextRegionPrefetch := np, nextRegionSafe := ns } : CacheState),
         some toLoad)
      else
        (s, (none : Option (List FrameData)))
    let s1 := step.1
    if s1.regionPrefetch.1 ≤ frame ∧ frame ≤ s1.regionPrefetch.2 then
      let data := s1.sequence.getD frame.toNat default
      ⟨{ s1 with cache := cacheGet s1.cache data.path },
       { img := some data.path, dim := some data.dim, metadata := data.metadata },
       step.2⟩
    else
      ⟨s1, Response.empty, step.2⟩

/-- `SequenceCache::onResultReady`: clear `loading`, promote the pending
regions, and emit `requestHandled` (the Boolean output). -/
def SequenceCache.onResultReady (s : CacheState) : CacheState × Bool :=
  ({ s with loading := false
            regionPrefetch := s.nextRegionPrefetch
            regionSafe := s.nextRegionSafe }, true)

/-- `SequenceCache::getCachedFrames`: the frame indices whose path is
resident in the Bounded Pixel Cache. -/
def SequenceCache.getCachedFrames (s : CacheState) : List Nat :=
  (List.range s.sequence.length).filter (fun f => (s.sequence.getD f default).path ∈ s.cache)

/-- Frame indices of the sequence contained in a region: valid indices
`i` with `r.first ≤ i ≤ r.second`. -/
def regionFrames (sequence : List FrameData) (r : Int × Int) : List Nat :=
  (List.range sequence.length).filter (fun i => decide (r.1 ≤ (i : Int)) && decide ((i : Int) ≤ r.2))

/-- Fold of `request` over a list of paths, counting how many Background
Loader batches were dispatched along the way. -/
def SequenceCache.requestMany : CacheState → List String → CacheState × Nat
  | s, [] => (s, 0)
  | s, p :: ps =>
    let r := SequenceCache.request s p
    let rest := SequenceCache.requestMany r.state ps
    (rest.1, (if r.dispatched.isSome then 1 else 0) + rest.2)

/-! Order facts about the path comparator, needed for the sort in
`setSequence`. -/

theorem charListLt_asymm : ∀ (a b : List Char), charListLt a b = true → charListLt b a = false := by
  intro a
  induction a with
  | nil => intro b h; cases b <;> simp [charListLt] at h ⊢
  | cons x xs ih =>
    intro b h
    cases b with
    | nil => simp [charListLt] at h
    | cons y ys =>
      simp only [charListLt] at h ⊢
      by_cases h1 : x < y
      · have h2 : ¬ y < x := lt_asymm h1
        simp [h1, h2]
      · by_cases h2 : y < x
        · simp [h1, h2] at h
        · simp [h1, h2] at h ⊢
          exact ih ys h

theorem charListLt_negtrans : ∀ (c a b : List Char),
    charListLt c a = true → charListLt c b = true ∨ charListLt b a = true := by
  intro c
  induction c with
  | nil =>
    intro a b h
    cases a with
    | nil => simp [charListLt] at h
    | cons ah at2 =>
      cases b with
      | nil => right; simp [charListLt]
      | cons bh bt => left; simp [charListLt]
  | cons ch ct ih =>
    intro a b h
    cases a with
    | nil => simp [charListLt] at h
    | cons ah at2 =>
      cases b with
      | nil => right; simp [charListLt]
      | cons bh bt =>
        simp only [charListLt] at h ⊢
        rcases lt_trichotomy ch bh with hcb | hcb | hcb
        · left; simp [hcb]
        · subst hcb
          rcases lt_trichotomy ch ah with hca | hca | hca
          · right; simp [hca]
          · subst hca
            have hir : ¬ ch < ch := lt_irrefl ch
            simp only [hir, if_false] at h ⊢
            exact ih at2 bt h
          · simp [hca, lt_asymm hca] at h
        · rcases lt_trichotomy bh ah with hba | hba | hba
          · right; simp [hba]
          · subst hba
            simp [lt_asymm hcb, hcb] at h
          · have hac : ah < ch := lt_trans hba hcb
            simp [lt_asymm hac, hac] at h

theorem charListLt_connex : ∀ (a b : List Char), a ≠ b →
    charListLt a b = true ∨ charListLt b a = true := by
  intro a
  induction a with
  | nil =>
    intro b hne
    cases b with
    | nil => exact absurd rfl hne
    | cons bh bt => left; simp [charListLt]
  | cons ah at2 ih =>
    intro b hne
    cases b with
    | nil => right; simp [charListLt]
    | cons bh bt =>
      simp only [charListLt]
      rcases lt_trichotomy ah bh with h | h | h
      · left; simp [h]
      · subst h
        have hir : ¬ ah < ah := lt_irrefl ah
        simp only [hir, if_false]
        apply ih
        intro hEq
        apply hne
        rw [hEq]
      · right; simp [h]

instance : IsTotal FrameData frameLe where
  total := by
    intro d1 d2
    by_cases h : charListLt d2.path.data d1.path.data = true
    · right
      exact charListLt_asymm _ _ h
    · left
      exact Bool.eq_false_iff.mpr h

instance : IsTrans FrameData frameLe where
  trans := by
    intro a b c hab hbc
    unfold frameLe at hab hbc ⊢
    by_contra hct
    have hct2 : charListLt c.path.data a.path.data = true :=
      Bool.eq_true_of_not_eq_false hct
    rcases charListLt_negtrans _ _ b.path.data hct2 with h | h
    · rw [hbc] at h; exact Bool.false_ne_true h
    · rw [hab] at h; exact Bool.false_ne_true h

theorem frameLe_and_ne_imp_frameLt (d1 d2 : FrameData)
    (hle : frameLe d1 d2) (hne : d1.path ≠ d2.path) : frameLt d1 d2 := by
  unfold frameLe at hle
  unfold frameLt
  have hdata : d1.path.data ≠ d2.path.data := fun h => hne (String.ext h)
  rcases charListLt_connex _ _ hdata with h | h
  · exact h
  · rw [hle] at h; exact absurd h Bool.false_ne_true

/-! Behaviour of the linear search of `SequenceCache::getFrame`. -/

theorem getFrameFrom_not_found (path : String) (l : List FrameData)
    (h : ∀ d ∈ l, d.path ≠ path) : ∀ idx, SequenceCache.getFrameFrom path idx l = -1 := by
  induction l with
  | nil => intro idx; rfl
  | cons d rest ih =>
    intro idx
    have hd : (d.path == path) = false := by
      simp only [beq_eq_false_iff_ne, ne_eq]
      exact h d (List.mem_cons_self d rest)
    simp only [SequenceCache.getFrameFrom, hd, Bool.false_eq_true, if_false]
    exact ih (fun d2 hd2 => h d2 (List.mem_cons_of_mem _ hd2)) (idx + 1)

theorem getFrameFrom_bounds (path : String) (l : List FrameData) :
    ∀ idx, SequenceCache.getFrameFrom path idx l = -1 ∨
      (idx ≤ SequenceCache.getFrameFrom path idx l ∧
       SequenceCache.getFrameFrom path idx l < idx + l.length) := by
  induction l with
  | nil => intro idx; left; rfl
  | cons d rest ih =>
    intro idx
    by_cases hd : (d.path == path) = true
    · right
      simp only [SequenceCache.getFrameFrom, hd, if_true, List.length_cons]
      push_cast
      omega
    · have hd2 : (d.path == path) = false := by
        simpa using hd
      simp only [SequenceCache.getFrameFrom, hd2, Bool.false_eq_true, if_false, List.length_cons]
      rcases ih (idx + 1) with h | h
      · left; exact h
      · right
        push_cast
        omega

theorem getFrameFrom_found (path : String) :
    ∀ (l : List FrameData) (i : Nat), i < l.length → (l.getD i default).path = path →
    (∀ j, j < i → (l.getD j default).path ≠ path) →
    ∀ idx, SequenceCache.getFrameFrom path idx l = idx + i := by
  intro l
  induction l with
  | nil => intro i hi; simp at hi
  | cons d rest ih =>
    intro i hi hfound hfirst idx
    cases i with
    | zero =>
      have hd : (d.path == path) = true := by
        simpa using hfound
      simp [SequenceCache.getFrameFrom, hd]
    | succ i =>
      have hd : (d.path == path) = false := by
        simpa using hfirst 0 (Nat.succ_pos i)
      simp only [SequenceCache.getFrameFrom, hd, Bool.false_eq_true, if_false]
      have hrec := ih i (by simpa using hi) (by simpa using hfound)
        (fun j hj => by simpa using hfirst (j + 1) (by omega)) (idx + 1)
      rw [hrec]
      push_cast
      omega

/-! Unfolding lemmas for the `request` state machine. -/

theorem getRegion_eq (N frame extent : Int) :
    SequenceCache.getRegion N frame extent =
      if frame - extent < 0 then (0, min (N - 1) (2 * extent))
      else if N ≤ frame + extent then (max 0 (N - 1 - 2 * extent), N - 1)
      else (frame - extent, frame + extent) := rfl

theorem request_unknown (s : CacheState) (path : String)
    (h : SequenceCache.getFrame s.sequence path < 0) :
    SequenceCache.request s path = ⟨s, Response.empty, none⟩ := by
  simp only [SequenceCache.request]
  rw [if_pos h]

theorem request_loading (s : CacheState) (path : String) (h : s.loading = true) :
    (SequenceCache.request s path).dispatched = none ∧
    (SequenceCache.request s path).state.loading = true ∧
    (SequenceCache.request s path).state.nextRegionPrefetch = s.nextRegionPrefetch ∧
    (SequenceCache.request s path).state.nextRegionSafe = s.nextRegionSafe ∧
    (SequenceCache.request s path).state.sequence = s.sequence ∧
    (SequenceCache.request s path).state.regionPrefetch = s.regionPrefetch ∧
    (SequenceCache.request s path).state.regionSafe = s.regionSafe ∧
    (SequenceCache.request s path).state.extentPrefetch = s.extentPrefetch ∧
    (SequenceCache.request s path).state.extentSafe = s.extentSafe := by
  simp only [SequenceCache.request]
  split_ifs with h1 h2 <;> simp_all

theorem request_dispatch (s : CacheState) (path : String)
    (hl : s.loading = false)
    (hf : ¬ SequenceCache.getFrame s.sequence path < 0)
    (hout : SequenceCache.getFrame s.sequence path < s.regionSafe.1 ∨
      s.regionSafe.2 < SequenceCache.getFrame s.sequence path) :
    (SequenceCache.request s path).dispatched =
      some ((s.sequence.drop (SequenceCache.getRegion s.sequence.length
              (SequenceCache.getFrame s.sequence path) s.extentPrefetch).1.toNat).take
            ((SequenceCache.getRegion s.sequence.length
              (SequenceCache.getFrame s.sequence path) s.extentPrefetch).2 -
             (SequenceCache.getRegion s.sequence.length
              (SequenceCache.getFrame s.sequence path) s.extentPrefetch).1).toNat) ∧
    (SequenceCache.request s path).state.nextRegionPrefetch =
      SequenceCache.getRegion s.sequence.length
        (SequenceCache.getFrame s.sequence path) s.extentPrefetch ∧
    (SequenceCache.request s path).state.nextRegionSafe =
      SequenceCache.getRegion s.sequence.length
        (SequenceCache.getFrame s.sequence path) s.extentSafe ∧
    (SequenceCache.request s path).state.loading = true ∧
    (SequenceCache.request s path).state.sequence = s.sequence ∧
    (SequenceCache.request s path).state.extentPrefetch = s.extentPrefetch ∧
    (SequenceCache.request s path).state.extentSafe = s.extentSafe := by
  have hcond : ((SequenceCache.getFrame s.sequence path < s.regionSafe.1 ∨
      s.regionSafe.2 < SequenceCache.getFrame s.sequence path) ∧ s.loading = false) := ⟨hout, hl⟩
  simp only [SequenceCache.request]
  rw [if_neg hf, if_pos hcond]
  split_ifs <;> simp_all

theorem requestMany_loading (ps : List String) : ∀ (s : CacheState), s.loading = true →
    (SequenceCache.requestMany s ps).2 = 0 ∧
    (SequenceCache.requestMany s ps).1.loading = true ∧
    (SequenceCache.requestMany s ps).1.nextRegionPrefetch = s.nextRegionPrefetch ∧
    (SequenceCache.requestMany s ps).1.nextRegionSafe = s.nextRegionSafe := by
  induction ps with
  | nil => intro s h; exact ⟨rfl, h, rfl, rfl⟩
  | cons p ps ih =>
    intro s h
    obtain ⟨hd, hload, hnp, hns, _⟩ := request_loading s p h
    obtain ⟨ih1, ih2, ih3, ih4⟩ := ih (SequenceCache.request s p).state hload
    simp only [SequenceCache.requestMany]
    exact ⟨by simp [hd, ih1], ih2, by rw [ih3, hnp], by rw [ih4, hns]⟩

/-! Concrete fixtures used by the closed theorems and witnesses below. -/

/-- A metadata probe that succeeds on every path with 1x1 dimensions. -/
def probeUnit : String → Option ((Int × Int) × List (String × String)) :=
  fun _ => some ((1, 1), [])

/-- A five-frame sequence fed to a freshly constructed cache. -/
def demo5 : CacheState :=
  SequenceCache.setSequence probeUnit SequenceCache.init ["p0", "p1", "p2", "p3", "p4"]

/-- The state after requesting frame 2 of `demo5` from the initial
regions, running the dispatched batch to completion, and processing the
completion signal. -/
def demo5AfterLoad : CacheState :=
  (SequenceCache.onResultReady
    { (SequenceCache.request demo5 "p2").state with
      cache := PrefetchingIORunnable.run (SequenceCache.request demo5 "p2").state.cache
        ((SequenceCache.request demo5 "p2").dispatched.getD []) }).1

/-- C1: REFUTED by the code.  The batch dispatched by a triggering
`request` is the half-open iterator range
`[nextPrefetch.first, nextPrefetch.second)`, which misses the window's
last index: on a five-frame sequence, requesting frame 2 dispatches only
frames 0..3 although the pending prefetch window is `[0, 4]`; after the
load completes, frame 4 lies in the prefetch region while its path is
not resident in the Bounded Pixel Cache. -/
theorem prefetch_batch_misses_window_end :
    (SequenceCache.request demo5 "p2").state.nextRegionPrefetch = (0, 4) ∧
    (SequenceCache.request demo5 "p2").dispatched.map (List.map FrameData.path) =
      some ["p0", "p1", "p2", "p3"] ∧
    demo5AfterLoad.regionPrefetch = (0, 4) ∧
    4 ∈ regionFrames demo5AfterLoad.sequence demo5AfterLoad.regionPrefetch ∧
    "p4" ∉ demo5AfterLoad.cache := by decide

/-- C2: immediately after construction the coordinator is `Idle` and
neither region contains any frame index of the (empty) sequence. -/
theorem init_idle_and_regions_empty :
    SequenceCache.init.loading = false ∧
    regionFrames SequenceCache.init.sequence SequenceCache.init.regionSafe = [] ∧
    regionFrames SequenceCache.init.sequence SequenceCache.init.regionPrefetch = [] := by
  decide

/-- C3: for `1 ≤ N`, `0 ≤ frame ≤ N - 1` and `0 ≤ extent`, the planned
window is a closed interval of width exactly `min (2 * extent + 1) N`,
contained in `[0, N - 1]`, and containing `frame`. -/
theorem getRegion_width_contained_member (N frame extent : Int)
    (hN : 1 ≤ N) (hf0 : 0 ≤ frame) (hfN : frame ≤ N - 1) (he : 0 ≤ extent) :
    (SequenceCache.getRegion N frame extent).2 - (SequenceCache.getRegion N frame extent).1 + 1 =
      min (2 * extent + 1) N ∧
    0 ≤ (SequenceCache.getRegion N frame extent).1 ∧
    (SequenceCache.getRegion N frame extent).2 ≤ N - 1 ∧
    (SequenceCache.getRegion N frame extent).1 ≤ frame ∧
    frame ≤ (SequenceCache.getRegion N frame extent).2 := by
  rw [getRegion_eq]
  split_ifs <;> simp <;> omega

/-- Witness for C3 at `N = 100`, `frame = 50`, `extent = 30`. -/
theorem getRegion_width_contained_member_witness :
    (SequenceCache.getRegion 100 50 30).2 - (SequenceCache.getRegion 100 50 30).1 + 1 =
      min (2 * 30 + 1) 100 ∧
    0 ≤ (SequenceCache.getRegion 100 50 30).1 ∧
    (SequenceCache.getRegion 100 50 30).2 ≤ 100 - 1 ∧
    (SequenceCache.getRegion 100 50 30).1 ≤ 50 ∧
    (50 : Int) ≤ (SequenceCache.getRegion 100 50 30).2 :=
  getRegion_width_contained_member 100 50 30 (by decide) (by decide) (by decide) (by decide)

/-- C4: for duplicate-free paths, `setSequence` produces a sequence of
the same length, strictly sorted ascending by path, and the linear
search `getFrame` inverts positional lookup: the descriptor at index `i`
is found back at index `i`. -/
theorem setSequence_sorted_dense_inverse
    (probe : String → Option ((Int × Int) × List (String × String)))
    (s : CacheState) (paths : List String) (h : paths.Nodup) :
    (SequenceCache.setSequence probe s paths).sequence.length = paths.length ∧
    List.Pairwise frameLt (SequenceCache.setSequence probe s paths).sequence ∧
    (∀ i, i < (SequenceCache.setSequence probe s paths).sequence.length →
      SequenceCache.getFrame (SequenceCache.setSequence probe s paths).sequence
        (((SequenceCache.setSequence probe s paths).sequence.getD i default).path) = i) := by
  have hseq : (SequenceCache.setSequence probe s paths).sequence =
      List.insertionSort frameLe (paths.map (probeFrame probe)) := rfl
  have hperm := List.perm_insertionSort frameLe (paths.map (probeFrame probe))
  have hmapid : (paths.map (probeFrame probe)).map FrameData.path = paths := by
    rw [List.map_map]
    exact List.map_id'' (fun p => rfl) paths
  have hn0 : ((paths.map (probeFrame probe)).map FrameData.path).Nodup := by
    rw [hmapid]; exact h
  have hnseq : ((List.insertionSort frameLe (paths.map (probeFrame probe))).map
      FrameData.path).Nodup := ((hperm.map FrameData.path).nodup_iff).mpr hn0
  have hlen : (List.insertionSort frameLe (paths.map (probeFrame probe))).length =
      paths.length := by
    rw [hperm.length_eq, List.length_map]
  have hle : List.Pairwise frameLe (List.insertionSort frameLe (paths.map (probeFrame probe))) :=
    List.sorted_insertionSort frameLe (paths.map (probeFrame probe))
  have hne : List.Pairwise (fun d1 d2 : FrameData => d1.path ≠ d2.path)
      (List.insertionSort frameLe (paths.map (probeFrame probe))) :=
    List.pairwise_map.mp hnseq
  refine ⟨by rw [hseq, hlen], ?_, ?_⟩
  · rw [hseq]
    exact (hle.and hne).imp (fun hab => frameLe_and_ne_imp_frameLt _ _ hab.1 hab.2)
  · intro i hi
    rw [hseq] at hi ⊢
    have hfirst : ∀ j, j < i →
        ((List.insertionSort frameLe (paths.map (probeFrame probe))).getD j default).path ≠
        ((List.insertionSort frameLe (paths.map (probeFrame probe))).getD i default).path := by
      intro j hj
      have hj2 : j < (List.insertionSort frameLe (paths.map (probeFrame probe))).length :=
        lt_trans hj hi
      have hp := List.pairwise_iff_getElem.mp hnseq j i (by simpa using hj2) (by simpa using hi) hj
      rw [List.getElem_map, List.getElem_map] at hp
      rw [List.getD_eq_getElem _ _ hj2, List.getD_eq_getElem _ _ hi]
      exact hp
    have hrun := getFrameFrom_found
      (((List.insertionSort frameLe (paths.map (probeFrame probe))).getD i default).path)
      (List.insertionSort frameLe (paths.map (probeFrame probe))) i hi rfl hfirst 0
    unfold SequenceCache.getFrame
    rw [hrun]
    omega

/-- Witness for C4 on the two-path list `["b", "a"]`. -/
theorem setSequence_sorted_dense_inverse_witness :
    (SequenceCache.setSequence probeUnit SequenceCache.init ["b", "a"]).sequence.length =
      (["b", "a"] : List String).length ∧
    List.Pairwise frameLt (SequenceCache.setSequence probeUnit SequenceCache.init ["b", "a"]).sequence ∧
    (∀ i, i < (SequenceCache.setSequence probeUnit SequenceCache.init ["b", "a"]).sequence.length →
      SequenceCache.getFrame (SequenceCache.setSequence probeUnit SequenceCache.init ["b", "a"]).sequence
        (((SequenceCache.setSequence probeUnit SequenceCache.init ["b", "a"]).sequence.getD
          i default).path) = i) :=
  setSequence_sorted_dense_inverse probeUnit SequenceCache.init ["b", "a"] (by decide)

/-- C5: from a `Loading` state, no run of `request` calls ever dispatches
a Background Loader batch: the count of dispatches is zero until
`onResultReady` clears the flag. -/
theorem no_dispatch_while_loading (s : CacheState) (ps : List String)
    (h : s.loading = true) : (SequenceCache.requestMany s ps).2 = 0 :=
  (requestMany_loading ps s h).1

/-- Witness for C5: three requests, in and out of window, against a
loading state. -/
theorem no_dispatch_while_loading_witness :
    (SequenceCache.requestMany { demo5 with loading := true } ["p0", "p4", "zz"]).2 = 0 :=
  no_dispatch_while_loading { demo5 with loading := true } ["p0", "p4", "zz"] rfl

/-- C6: after the completion signal is processed — regardless of the
requests served while the load was in flight — the prefetch and safe
regions are exactly the windows computed at the triggering `request`
call, the state is `Idle` again, and `requestHandled` is emitted. -/
theorem onResultReady_promotes_trigger_windows (s : CacheState) (path : String) (ps : List String)
    (hl : s.loading = false)
    (hf : ¬ SequenceCache.getFrame s.sequence path < 0)
    (hout : SequenceCache.getFrame s.sequence path < s.regionSafe.1 ∨
      s.regionSafe.2 < SequenceCache.getFrame s.sequence path) :
    (SequenceCache.onResultReady
        (SequenceCache.requestMany (SequenceCache.request s path).state ps).1).1.regionPrefetch =
      SequenceCache.getRegion s.sequence.length (SequenceCache.getFrame s.sequence path)
        s.extentPrefetch ∧
    (SequenceCache.onResultReady
        (SequenceCache.requestMany (SequenceCache.request s path).state ps).1).1.regionSafe =
      SequenceCache.getRegion s.sequence.length (SequenceCache.getFrame s.sequence path)
        s.extentSafe ∧
    (SequenceCache.onResultReady
        (SequenceCache.requestMany (SequenceCache.request s path).state ps).1).1.loading = false ∧
    (SequenceCache.onResultReady
        (SequenceCache.requestMany (SequenceCache.request s path).state ps).1).2 = true := by
  obtain ⟨_, hnp, hns, hload, _⟩ := request_dispatch s path hl hf hout
  obtain ⟨_, _, hmp, hms⟩ := requestMany_loading ps (SequenceCache.request s path).state hload
  refine ⟨?_, ?_, rfl, rfl⟩
  · show (SequenceCache.requestMany (SequenceCache.request s path).state ps).1.nextRegionPrefetch = _
    rw [hmp, hnp]
  · show (SequenceCache.requestMany (SequenceCache.request s path).state ps).1.nextRegionSafe = _
    rw [hms, hns]

/-- Witness for C6: frame 2 of `demo5` triggers, one request intervenes,
then the completion promotes `getRegion 5 2 30` and `getRegion 5 2 20`. -/
theorem onResultReady_promotes_trigger_windows_witness :
    (SequenceCache.onResultReady
        (SequenceCache.requestMany (SequenceCache.request demo5 "p2").state ["p0"]).1).1.regionPrefetch =
      SequenceCache.getRegion demo5.sequence.length (SequenceCache.getFrame demo5.sequence "p2")
        demo5.extentPrefetch ∧
    (SequenceCache.onResultReady
        (SequenceCache.requestMany (SequenceCache.request demo5 "p2").state ["p0"]).1).1.regionSafe =
      SequenceCache.getRegion demo5.sequence.length (SequenceCache.getFrame demo5.sequence "p2")
        demo5.extentSafe ∧
    (SequenceCache.onResultReady
        (SequenceCache.requestMany (SequenceCache.request demo5 "p2").state ["p0"]).1).1.loading = false ∧
    (SequenceCache.onResultReady
        (SequenceCache.requestMany (SequenceCache.request demo5 "p2").state ["p0"]).1).2 = true :=
  onResultReady_promotes_trigger_windows demo5 "p2" ["p0"] rfl (by decide) (by decide)

/-- C7: a `request` for a path outside the sequence returns the empty
response and leaves the whole state — regions, pending regions, flag and
cache — untouched, dispatching nothing. -/
theorem request_unknown_path_pure (s : CacheState) (path : String)
    (h : ∀ d ∈ s.sequence, d.path ≠ path) :
    SequenceCache.request s path = ⟨s, Response.empty, none⟩ := by
  apply request_unknown
  unfold SequenceCache.getFrame
  rw [getFrameFrom_not_found path s.sequence h 0]
  decide

/-- Witness for C7: a path foreign to `demo5`. -/
theorem request_unknown_path_pure_witness :
    SequenceCache.request demo5 "zz" = ⟨demo5, Response.empty, none⟩ :=
  request_unknown_path_pure demo5 "zz" (by decide)

/-- C8: REFUTED by the code.  A failing metadata probe is not surfaced:
`setSequence` runs to completion and silently inserts a descriptor with
zeroed dimensions and empty metadata for the unreadable path. -/
theorem setSequence_swallows_probe_failure :
    (SequenceCache.setSequence (fun _ => none) SequenceCache.init ["bad.png"]).sequence =
      [{ path := "bad.png", dim := (0, 0), metadata := [] }] := by decide

/-- C9: the planner is monotone in the extent — the window for a smaller
extent is nested in the window for a larger one — and consequently, at
any triggering `request` whose safe extent is at most its prefetch
extent, the pending safe window is nested inside the pending prefetch
window. -/
theorem getRegion_monotone_and_request_nested :
    (∀ N frame eS eP : Int, 0 ≤ frame → frame ≤ N - 1 → 0 ≤ eS → eS ≤ eP →
      (SequenceCache.getRegion N frame eP).1 ≤ (SequenceCache.getRegion N frame eS).1 ∧
      (SequenceCache.getRegion N frame eS).2 ≤ (SequenceCache.getRegion N frame eP).2) ∧
    (∀ (s : CacheState) (path : String),
      s.loading = false → 0 ≤ s.extentSafe → s.extentSafe ≤ s.extentPrefetch →
      ¬ SequenceCache.getFrame s.sequence path < 0 →
      (SequenceCache.getFrame s.sequence path < s.regionSafe.1 ∨
        s.regionSafe.2 < SequenceCache.getFrame s.sequence path) →
      ((SequenceCache.request s path).state.nextRegionPrefetch.1 ≤
          (SequenceCache.request s path).state.nextRegionSafe.1 ∧
        (SequenceCache.request s path).state.nextRegionSafe.2 ≤
          (SequenceCache.request s path).state.nextRegionPrefetch.2)) := by
  have hmono : ∀ N frame eS eP : Int, 0 ≤ frame → frame ≤ N - 1 → 0 ≤ eS → eS ≤ eP →
      (SequenceCache.getRegion N frame eP).1 ≤ (SequenceCache.getRegion N frame eS).1 ∧
      (SequenceCache.getRegion N frame eS).2 ≤ (SequenceCache.getRegion N frame eP).2 := by
    intro N frame eS eP h1 h2 h3 h4
    rw [getRegion_eq, getRegion_eq]
    split_ifs <;> simp <;> omega
  refine ⟨hmono, ?_⟩
  intro s path hl hes hsp hf hout
  obtain ⟨_, hnp, hns, _⟩ := request_dispatch s path hl hf hout
  rw [hnp, hns]
  have hb : SequenceCache.getFrame s.sequence path = -1 ∨
      (0 ≤ SequenceCache.getFrame s.sequence path ∧
       SequenceCache.getFrame s.sequence path < 0 + s.sequence.length) :=
    getFrameFrom_bounds path s.sequence 0
  rcases hb with hb | hb
  · rw [hb] at hf
    exact absurd (by decide) hf
  · exact hmono s.sequence.length (SequenceCache.getFrame s.sequence path)
      s.extentSafe s.extentPrefetch hb.1 (by omega) hes hsp

/-- Witness for C9: nesting at `N = 100`, `frame = 50`, extents 20 and
30, and at the triggering request for frame 2 of `demo5`. -/
theorem getRegion_monotone_and_request_nested_witness :
    ((SequenceCache.getRegion 100 50 30).1 ≤ (SequenceCache.getRegion 100 50 20).1 ∧
      (SequenceCache.getRegion 100 50 20).2 ≤ (SequenceCache.getRegion 100 50 30).2) ∧
    ((SequenceCache.request demo5 "p2").state.nextRegionPrefetch.1 ≤
        (SequenceCache.request demo5 "p2").state.nextRegionSafe.1 ∧
      (SequenceCache.request demo5 "p2").state.nextRegionSafe.2 ≤
        (SequenceCache.request demo5 "p2").state.nextRegionPrefetch.2) :=
  ⟨getRegion_monotone_and_request_nested.1 100 50 20 30 (by decide) (by decide) (by decide)
      (by decide),
   getRegion_monotone_and_request_nested.2 demo5 "p2" rfl (by decide) (by decide) (by decide)
      (by decide)⟩

/-- C10: `setSequence` replaces only the descriptor list; regions,
pending regions, loading flag and cache contents are untouched, so
regions computed for the previous sequence stay in effect. -/
theorem setSequence_touches_only_sequence
    (probe : String → Option ((Int × Int) × List (String × String)))
    (s : CacheState) (paths : List String) :
    (SequenceCache.setSequence probe s paths).regionPrefetch = s.regionPrefetch ∧
    (SequenceCache.setSequence probe s paths).extentPrefetch = s.extentPrefetch ∧
    (SequenceCache.setSequence probe s paths).regionSafe = s.regionSafe ∧
    (SequenceCache.setSequence probe s paths).extentSafe = s.extentSafe ∧
    (SequenceCache.setSequence probe s paths).nextRegionPrefetch = s.nextRegionPrefetch ∧
    (SequenceCache.setSequence probe s paths).nextRegionSafe = s.nextRegionSafe ∧
    (SequenceCache.setSequence probe s paths).loading = s.loading ∧
    (SequenceCache.setSequence probe s paths).cache = s.cache :=
  ⟨rfl, rfl, rfl, rfl, rfl, rfl, rfl, rfl⟩
